import Mathlib

/-!
Verification of the `mytool` interactive file-client (C++ sources under
`ops-tools_copy/file_client.cpp`, `spdb_sdk_filesystem.cpp` and
`filesystem_interface.cpp`).  The development shallowly embeds the path
resolver, the content classifier, the hexdump renderer and the command
dispatcher.  C++ `std::string` values are modelled as Lean `String`
(respectively `List Char` at the algorithmic core); raw bytes
(`unsigned char`) are modelled as `Nat` values below 256; functions that
throw `std::runtime_error` are modelled with `Except String`.
-/

namespace FileClient

/-! ## Path resolver core (SPDB_SDKFileSystem::normalize_path and friends)

The C++ functions work on `std::string`; the algorithmic core is embedded
on `List Char` and wrapped into `String` at the interface. -/

/-- Helper for the splitter: prepend a non-delimiter character to the first
segment of the remainder (a fresh singleton segment when the remainder has
no segment at all, i.e. at end of input). -/
def consHead (c : Char) : List (List Char) → List (List Char)
  | [] => [[c]]
  | seg :: rest => (c :: seg) :: rest

/-- Splitting used by `normalize_path`: `std::getline(ss, component, '/')`.
It yields the runs between `'/'` delimiters; a trailing delimiter produces
no trailing empty component, and the empty input produces no component. -/
def getlineSegs : List Char → List (List Char)
  | [] => []
  | c :: t =>
    if c = '/' then [] :: getlineSegs t
    else consHead c (getlineSegs t)

/-- The component loop of `SPDB_SDKFileSystem::normalize_path`: empty and
`"."` components are dropped, `".."` pops the accumulated vector
(`pop_back`, a no-op on an empty vector), anything else is pushed. -/
def normCompsAux : List (List Char) → List (List Char) → List (List Char)
  | acc, [] => acc
  | acc, c :: rest =>
    if c = [] ∨ c = ['.'] then normCompsAux acc rest
    else if c = ['.', '.'] then normCompsAux acc.dropLast rest
    else normCompsAux (acc ++ [c]) rest

def normComps (segs : List (List Char)) : List (List Char) :=
  normCompsAux [] segs

/-- The rebuild loop of `normalize_path`: components joined with `'/'`
(`if (i > 0) result += "/"`). -/
def joinComps : List (List Char) → List Char
  | [] => []
  | [c] => c
  | c :: c2 :: rest => c ++ '/' :: joinComps (c2 :: rest)

/-- `SPDB_SDKFileSystem::normalize_path` on the character list of the
argument: empty input yields `"/"`, otherwise the split components are
filtered/popped and rejoined behind a leading `'/'`. -/
def normChars (p : List Char) : List Char :=
  if p = [] then ['/']
  else '/' :: joinComps (normComps (getlineSegs p))

/-- `SPDB_SDKFileSystem::normalize_path`. -/
def normalize_path (p : String) : String :=
  ⟨normChars p.data⟩

/-- `SPDB_SDKFileSystem::resolve_path`: empty input resolves to the current
directory, an absolute input is normalized directly, a relative input is
appended to the current directory (with a separating `'/'` unless the
current directory is `"/"`) and normalized. -/
def resolve_path (current p : String) : String :=
  if p = "" then current
  else if p.data.head? = some '/' then normalize_path p
  else normalize_path ⟨(if current = "/" then current.data else current.data ++ ['/']) ++ p.data⟩

/-- `SPDB_SDKFileSystem::is_safe_path`: the normalized path must be
non-empty and start with `'/'`. -/
def is_safe_path (p : String) : Bool :=
  let n := normalize_path p
  !n.data.isEmpty && (n.data.head? == some '/')

/-- `SPDB_SDKFileSystem::is_trying_to_escape_root`: resolves the raw path
and then applies `is_safe_path` to the resolved result. -/
def is_trying_to_escape_root (current p : String) : Bool :=
  !(is_safe_path (resolve_path current p))

/-- `SPDB_SDKFileSystem::get_full_path` on character lists: the argument is
normalized, then the root is prepended after stripping the leading `'/'`;
the empty/relative branches of the C++ code are kept even though the
normalized form can never take them. -/
def fullChars (root cur p : List Char) : List Char :=
  let normalized := normChars p
  if normalized = [] then root ++ cur.drop 1
  else if normalized.head? = some '/' then root ++ normalized.drop 1
  else
    let base := (if cur = ['/'] then cur else cur ++ ['/']) ++ normalized
    root ++ (normChars base).drop 1

/-- `SPDB_SDKFileSystem::get_full_path`. -/
def get_full_path (root cur p : String) : String :=
  ⟨fullChars root.data cur.data p.data⟩

/-! ### Lemmas about the splitter -/

theorem getlineSegs_slash_cons (t : List Char) :
    getlineSegs ('/' :: t) = [] :: getlineSegs t := by
  simp [getlineSegs]

theorem getlineSegs_cons_ne {c : Char} (t : List Char) (hc : c ≠ '/') :
    getlineSegs (c :: t) = consHead c (getlineSegs t) := by
  simp [getlineSegs, hc]

theorem getlineSegs_no_slash : ∀ (s : List Char), ∀ seg ∈ getlineSegs s, '/' ∉ seg := by
  intro s
  induction s with
  | nil => intro seg h; simp [getlineSegs] at h
  | cons c t ih =>
    intro seg h
    by_cases hc : c = '/'
    · subst hc
      rw [getlineSegs_slash_cons] at h
      rcases List.mem_cons.mp h with h | h
      · subst h; simp
      · exact ih seg h
    · rw [getlineSegs_cons_ne t hc] at h
      rcases hseg : getlineSegs t with _ | ⟨s0, rest⟩
      · rw [hseg, consHead] at h
        have : seg = [c] := by simpa using h
        subst this
        simp [Ne.symm hc]
      · rw [hseg, consHead] at h
        rcases List.mem_cons.mp h with h | h
        · subst h
          intro hmem
          rcases List.mem_cons.mp hmem with h | h
          · exact hc h.symm
          · exact ih s0 (by rw [hseg]; exact List.mem_cons_self s0 rest) h
        · exact ih seg (by rw [hseg]; exact List.mem_cons_of_mem s0 h)

theorem getlineSegs_append_slash :
    ∀ (a r : List Char), '/' ∉ a → getlineSegs (a ++ '/' :: r) = a :: getlineSegs r := by
  intro a
  induction a with
  | nil => intro r _; simp [getlineSegs]
  | cons c a' ih =>
    intro r hns
    have hc : c ≠ '/' := by intro h; exact hns (by simp [h])
    have ha' : '/' ∉ a' := by intro h; exact hns (List.mem_cons_of_mem c h)
    rw [List.cons_append, getlineSegs_cons_ne _ hc, ih r ha', consHead]

theorem getlineSegs_no_slash_ne_nil :
    ∀ (a : List Char), '/' ∉ a → a ≠ [] → getlineSegs a = [a] := by
  intro a
  induction a with
  | nil => intro _ h; exact absurd rfl h
  | cons c a' ih =>
    intro hns _
    have hc : c ≠ '/' := by intro h; exact hns (by simp [h])
    have ha' : '/' ∉ a' := by intro h; exact hns (List.mem_cons_of_mem c h)
    by_cases hnil : a' = []
    · subst hnil
      rw [getlineSegs_cons_ne _ hc]
      simp [getlineSegs, consHead]
    · rw [getlineSegs_cons_ne _ hc, ih ha' hnil, consHead]

/-! ### Lemmas about the component normalizer -/

/-- A component is pushable when it is neither empty, nor `"."`, nor `".."`. -/
def Pushable (c : List Char) : Prop :=
  c ≠ [] ∧ c ≠ ['.'] ∧ c ≠ ['.', '.']

theorem mem_of_mem_dropLast {α : Type} (l : List α) (x : α) (h : x ∈ l.dropLast) : x ∈ l :=
  (List.dropLast_sublist l).subset h

theorem normCompsAux_inv :
    ∀ (segs acc : List (List Char)),
      (∀ c ∈ acc, Pushable c ∧ '/' ∉ c) →
      (∀ s ∈ segs, '/' ∉ s) →
      ∀ c ∈ normCompsAux acc segs, Pushable c ∧ '/' ∉ c := by
  intro segs
  induction segs with
  | nil => intro acc hacc _ c hc; exact hacc c hc
  | cons s rest ih =>
    intro acc hacc hsegs c hc
    have hs : '/' ∉ s := hsegs s (List.mem_cons_self s rest)
    have hrest : ∀ x ∈ rest, '/' ∉ x := fun x hx => hsegs x (List.mem_cons_of_mem s hx)
    by_cases h1 : s = [] ∨ s = ['.']
    · rw [normCompsAux, if_pos h1] at hc
      exact ih acc hacc hrest c hc
    · by_cases h2 : s = ['.', '.']
      · rw [normCompsAux, if_neg h1, if_pos h2] at hc
        refine ih acc.dropLast ?_ hrest c hc
        intro x hx
        exact hacc x (mem_of_mem_dropLast acc x hx)
      · rw [normCompsAux, if_neg h1, if_neg h2] at hc
        refine ih (acc ++ [s]) ?_ hrest c hc
        intro x hx
        rcases List.mem_append.mp hx with hx | hx
        · exact hacc x hx
        · have : x = s := by simpa using hx
          subst this
          push_neg at h1
          exact ⟨⟨h1.1, h1.2, h2⟩, hs⟩

theorem normCompsAux_pushall :
    ∀ (segs acc : List (List Char)),
      (∀ c ∈ segs, Pushable c) →
      normCompsAux acc segs = acc ++ segs := by
  intro segs
  induction segs with
  | nil => intro acc _; simp [normCompsAux]
  | cons s rest ih =>
    intro acc hsegs
    obtain ⟨h1, h2, h3⟩ := hsegs s (List.mem_cons_self s rest)
    have hrest : ∀ c ∈ rest, Pushable c := fun c hc => hsegs c (List.mem_cons_of_mem s hc)
    rw [normCompsAux, if_neg (by simp [h1, h2]), if_neg h3, ih (acc ++ [s]) hrest]
    simp

/-! ### Lemmas about the joined, normalized path -/

theorem joinComps_no_slash_parts :
    ∀ (comps : List (List Char)),
      (∀ c ∈ comps, Pushable c ∧ '/' ∉ c) →
      comps ≠ [] →
      getlineSegs (joinComps comps) = comps := by
  intro comps
  induction comps with
  | nil => intro _ h; exact absurd rfl h
  | cons c rest ih =>
    intro hP _
    obtain ⟨⟨hne, _, _⟩, hns⟩ := hP c (List.mem_cons_self c rest)
    cases rest with
    | nil => exact getlineSegs_no_slash_ne_nil c hns hne
    | cons c2 rest' =>
      rw [joinComps, getlineSegs_append_slash c (joinComps (c2 :: rest')) hns]
      congr 1
      exact ih (fun x hx => hP x (List.mem_cons_of_mem c hx)) (by simp)

theorem normChars_eq_cons (p : List Char) :
    normChars p = '/' :: joinComps (normComps (getlineSegs p)) := by
  by_cases h : p = []
  · subst h; simp [normChars, getlineSegs, normComps, normCompsAux, joinComps]
  · simp [normChars, h]

theorem normChars_ne_nil (p : List Char) : normChars p ≠ [] := by
  rw [normChars_eq_cons]; simp

theorem normChars_head (p : List Char) : (normChars p).head? = some '/' := by
  rw [normChars_eq_cons]; simp

theorem normComps_getlineSegs_P (p : List Char) :
    ∀ c ∈ normComps (getlineSegs p), Pushable c ∧ '/' ∉ c := by
  intro c hc
  exact normCompsAux_inv (getlineSegs p) [] (by simp) (getlineSegs_no_slash p) c hc

/-- Normalizing an already-normalized path changes nothing (char level). -/
theorem normChars_idem (p : List Char) : normChars (normChars p) = normChars p := by
  have hP := normComps_getlineSegs_P p
  rw [normChars_eq_cons p]
  generalize hg : normComps (getlineSegs p) = comps at hP ⊢
  cases comps with
  | nil =>
    show normChars ['/'] = ['/']
    simp [normChars, getlineSegs, consHead, normComps, normCompsAux, joinComps]
  | cons c0 rest =>
    have hne : (('/' : Char) :: joinComps (c0 :: rest)) ≠ [] := by simp
    rw [normChars, if_neg hne, getlineSegs_slash_cons,
      joinComps_no_slash_parts (c0 :: rest) hP (by simp)]
    have hstep : normComps ([] :: c0 :: rest) = c0 :: rest := by
      show normCompsAux [] ([] :: c0 :: rest) = c0 :: rest
      rw [normCompsAux, if_pos (Or.inl rfl)]
      have := normCompsAux_pushall (c0 :: rest) [] (fun c hcm => (hP c hcm).1)
      simpa using this
    rw [hstep]

/-- The normalized path never takes the empty or relative branch of
`get_full_path`: the full backend path is always the root followed by the
normalized virtual path with its leading slash stripped (char level). -/
theorem fullChars_eq (root cur p : List Char) :
    fullChars root cur p = root ++ (normChars p).drop 1 := by
  show (if normChars p = [] then root ++ cur.drop 1
    else if (normChars p).head? = some '/' then root ++ (normChars p).drop 1
    else root ++ (normChars ((if cur = ['/'] then cur else cur ++ ['/']) ++ normChars p)).drop 1)
    = root ++ (normChars p).drop 1
  rw [if_neg (normChars_ne_nil p), if_pos (normChars_head p)]

theorem normChars_drop_one_segs (p : List Char) :
    ∀ seg ∈ getlineSegs ((normChars p).drop 1), seg ≠ ['.'] ∧ seg ≠ ['.', '.'] := by
  have hP := normComps_getlineSegs_P p
  rw [normChars_eq_cons p]
  simp only [List.drop_one, List.tail_cons]
  cases hc : normComps (getlineSegs p) with
  | nil => simp [joinComps, getlineSegs]
  | cons c0 rest =>
    rw [← hc, joinComps_no_slash_parts _ hP (by rw [hc]; simp)]
    intro seg hseg
    obtain ⟨⟨_, h2, h3⟩, _⟩ := hP seg hseg
    exact ⟨h2, h3⟩

/-! ## Content classifier (FileClient::is_text_file)

Bytes (`unsigned char`) are modelled as `Nat`. -/

/-- The UTF-8 lead-byte classification of `is_text_file`: 2/3/4 for the
three valid lead patterns, 0 for an invalid lead byte. -/
def utf8LeadLen (c : Nat) : Nat :=
  if c &&& 0xE0 = 0xC0 then 2
  else if c &&& 0xF0 = 0xE0 then 3
  else if c &&& 0xF8 = 0xF0 then 4
  else 0

/-- The scanning loop of `is_text_file` over the inspected window,
returning `none` when a NUL byte is met (immediately binary) and otherwise
the number of non-printable units.  The C++ `while (i < total)` loop
strictly increases `i` on every iteration, so the window length bounds the
number of iterations; `fuel` carries that bound to make the recursion
structural. -/
def countNPF : Nat → List Nat → Option Nat
  | 0, _ => some 0
  | _, [] => some 0
  | fuel + 1, c :: rest =>
    if c = 0 then none
    else if c < 32 then
      if c ≠ 9 ∧ c ≠ 10 ∧ c ≠ 13 then Option.map (· + 1) (countNPF fuel rest)
      else countNPF fuel rest
    else if 0x80 ≤ c then
      let len := utf8LeadLen c
      if len = 0 then Option.map (· + 1) (countNPF fuel rest)
      else
        let valid := (rest.take (len - 1)).all (fun cc => cc &&& 0xC0 == 0x80)
        Option.map (fun n => if valid then n else n + 1) (countNPF fuel (rest.drop (len - 1)))
    else countNPF fuel rest

/-- Non-printable-unit count of a window (the fuel is exactly the window
length, which the loop can never exhaust). -/
def countNP (window : List Nat) : Option Nat :=
  countNPF window.length window

/-- `FileClient::is_text_file`: empty content is text; a NUL in the first
512 bytes is binary; otherwise binary iff the non-printable ratio over the
inspected window reaches 30 percent. -/
def is_text_file (content : List Nat) : Bool :=
  if content = [] then true
  else
    let total := min content.length 512
    match countNP (content.take total) with
    | none => false
    | some np => np * 100 / total < 30

theorem countNPF_nil : ∀ (f : Nat), countNPF f [] = some 0 := by
  intro f; cases f <;> rfl

/-- The fuel is irrelevant as long as it dominates the window length. -/
theorem countNPF_fuel_irrel :
    ∀ (f g : Nat) (l : List Nat), l.length ≤ f → l.length ≤ g →
      countNPF f l = countNPF g l := by
  intro f
  induction f with
  | zero =>
    intro g l hf _
    have : l = [] := List.eq_nil_of_length_eq_zero (Nat.le_zero.mp hf)
    subst this
    rw [countNPF_nil, countNPF_nil]
  | succ f ih =>
    intro g l hf hg
    cases l with
    | nil => rw [countNPF_nil, countNPF_nil]
    | cons c rest =>
      cases g with
      | zero => simp at hg
      | succ g =>
        have hrf : rest.length ≤ f := by simpa using hf
        have hrg : rest.length ≤ g := by simpa using hg
        have hd : ∀ (k : Nat), (rest.drop k).length ≤ rest.length := by
          intro k; rw [List.length_drop]; omega
        have h1 : countNPF f rest = countNPF g rest := ih g rest hrf hrg
        have h2 : countNPF f (rest.drop (utf8LeadLen c - 1))
            = countNPF g (rest.drop (utf8LeadLen c - 1)) :=
          ih g _ (le_trans (hd _) hrf) (le_trans (hd _) hrg)
        simp only [countNPF, h1, h2]

theorem countNPF_eq_countNP (f : Nat) (l : List Nat) (h : l.length ≤ f) :
    countNPF f l = countNP l :=
  countNPF_fuel_irrel f l.length l h le_rfl

/-- One scan step of `is_text_file` at a high byte whose lead pattern is
valid: the continuation bytes present in the window are checked, the whole
sequence is consumed, and exactly one non-printable unit is added when one
of the present continuation bytes fails the `10xxxxxx` check. -/
theorem countNP_utf8_step (c : Nat) (rest : List Nat)
    (hc : 0x80 ≤ c) (hlen : utf8LeadLen c ≠ 0) :
    countNP (c :: rest) =
      Option.map
        (fun n => if (rest.take (utf8LeadLen c - 1)).all (fun cc => cc &&& 0xC0 == 0x80)
          then n else n + 1)
        (countNP (rest.drop (utf8LeadLen c - 1))) := by
  have h0 : c ≠ 0 := by omega
  have h32 : ¬ c < 32 := by omega
  have hdl : (rest.drop (utf8LeadLen c - 1)).length ≤ rest.length := by
    rw [List.length_drop]; omega
  rw [countNP, List.length_cons, countNPF, if_neg h0, if_neg h32, if_pos hc]
  simp only [if_neg hlen]
  rw [countNPF_eq_countNP rest.length _ hdl]

/-! ## Hexdump renderer (the output loop of FileClient::cmd_hexdump) -/

/-- One hexadecimal digit, lower case (`std::hex` default). -/
def hexDigitChar (n : Nat) : Char :=
  if n < 10 then Char.ofNat (48 + n) else Char.ofNat (97 + (n - 10))

/-- Hexadecimal digits of a number, most significant first. -/
def hexDigits (n : Nat) : List Char :=
  if n < 16 then [hexDigitChar n]
  else hexDigits (n / 16) ++ [hexDigitChar (n % 16)]
termination_by n
decreasing_by exact Nat.div_lt_self (by omega) (by omega)

/-- `std::hex << std::setfill('0') << std::setw(8)`: at least eight
hex digits, zero-padded on the left. -/
def hex8 (n : Nat) : List Char :=
  List.replicate (8 - (hexDigits n).length) '0' ++ hexDigits n

/-- The inner bit loop: a byte as its 8-bit binary representation,
most significant bit first. -/
def bin8 (b : Nat) : List Char :=
  (List.range 8).map (fun k => if (b >>> (7 - k)) &&& 1 = 1 then '1' else '0')

/-- `std::isprint` in the C locale: the printable ASCII range. -/
def isprint (b : Nat) : Bool :=
  decide (0x20 ≤ b ∧ b ≤ 0x7E)

/-- One cell of the ASCII side panel: the character itself when printable,
otherwise a dot. -/
def asciiCell (b : Nat) : Char :=
  if isprint b then Char.ofNat b else '.'

/-- One output line of `cmd_hexdump`, translated index-wise from the code:
the absolute offset in 8-digit hex, `": "`, eight byte slots (an 8-bit
binary rendering plus one space for a present byte, nine blanks for a
missing one), one separating space, the 8-character ASCII panel (blank for
missing bytes) and a newline. -/
def hdLine (file_offset : Nat) (content : List Nat) (lo : Nat) : List Char :=
  hex8 (file_offset + lo) ++ [':', ' ']
    ++ ((List.range 8).map (fun i =>
          if lo + i < content.length then bin8 (content.getD (lo + i) 0) ++ [' ']
          else List.replicate 9 ' ')).flatten
    ++ [' ']
    ++ (List.range 8).map (fun i =>
          if lo + i < content.length then asciiCell (content.getD (lo + i) 0) else ' ')
    ++ ['\n']

/-- The line loop of `cmd_hexdump`: `line_offset` advances by 8 while it is
below the content size. -/
def hdRenderGo (file_offset : Nat) (content : List Nat) (lo : Nat) : List Char :=
  if lo < content.length then
    hdLine file_offset content lo ++ hdRenderGo file_offset content (lo + 8)
  else []
termination_by content.length - lo
decreasing_by omega

/-- The rendering stage of `cmd_hexdump` applied to a byte window read at
`file_offset`. -/
def hexdump_render (file_offset : Nat) (content : List Nat) : List Char :=
  hdRenderGo file_offset content 0

/-! ### Specification-side description of the rendered output -/

/-- The content split into consecutive lines of at most eight bytes. -/
def chunks8 (content : List Nat) : List (List Nat) :=
  if content = [] then []
  else content.take 8 :: chunks8 (content.drop 8)
termination_by content.length
decreasing_by
  rename_i h
  have : content.length ≠ 0 := fun hh => h (List.eq_nil_of_length_eq_zero hh)
  rw [List.length_drop]; omega

/-- A line as the specification describes it, built from its chunk of at
most eight bytes: 8-digit hex absolute offset, `": "`, the present bytes
as binary-plus-space fields, nine blanks per missing slot, a space, the
ASCII panel padded with blanks to eight characters, and a newline. -/
def specLine (abs : Nat) (chunk : List Nat) : List Char :=
  hex8 abs ++ [':', ' ']
    ++ (chunk.map (fun b => bin8 b ++ [' '])).flatten
    ++ (List.replicate (8 - chunk.length) (List.replicate 9 ' ')).flatten
    ++ [' ']
    ++ chunk.map asciiCell
    ++ List.replicate (8 - chunk.length) ' '
    ++ ['\n']

theorem range_map_join_chunk {α : Type} (f : α → List Char) (pad : List Char) :
    ∀ (n : Nat) (chunk : List α) (d : α), chunk.length ≤ n →
      ((List.range n).map (fun i => if i < chunk.length then f (chunk.getD i d) else pad)).flatten
        = (chunk.map f).flatten ++ (List.replicate (n - chunk.length) pad).flatten := by
  intro n
  induction n with
  | zero =>
    intro chunk d h
    have : chunk = [] := List.eq_nil_of_length_eq_zero (Nat.le_zero.mp h)
    subst this
    simp
  | succ n ih =>
    intro chunk d h
    cases chunk with
    | nil => simp
    | cons c cs =>
      rw [List.range_succ_eq_map]
      simp only [List.map_cons, List.map_map, List.flatten_cons]
      have h0 : (if 0 < (c :: cs).length then f ((c :: cs).getD 0 d) else pad) = f c := by
        simp
      rw [h0]
      have hfun :
          ((List.range n).map ((fun i => if i < (c :: cs).length then f ((c :: cs).getD i d) else pad) ∘ Nat.succ))
            = (List.range n).map (fun i => if i < cs.length then f (cs.getD i d) else pad) := by
        apply List.map_congr_left
        intro i _
        simp [Function.comp, Nat.succ_lt_succ_iff]
      rw [hfun, ih cs d (by simpa using h)]
      simp [List.append_assoc]

theorem range_map_chunk {α β : Type} (f : α → β) (pad : β) :
    ∀ (n : Nat) (chunk : List α) (d : α), chunk.length ≤ n →
      (List.range n).map (fun i => if i < chunk.length then f (chunk.getD i d) else pad)
        = chunk.map f ++ List.replicate (n - chunk.length) pad := by
  intro n
  induction n with
  | zero =>
    intro chunk d h
    have : chunk = [] := List.eq_nil_of_length_eq_zero (Nat.le_zero.mp h)
    subst this
    simp
  | succ n ih =>
    intro chunk d h
    cases chunk with
    | nil => simp [List.replicate_succ]
    | cons c cs =>
      rw [List.range_succ_eq_map]
      simp only [List.map_cons, List.map_map]
      have h0 : (if 0 < (c :: cs).length then f ((c :: cs).getD 0 d) else pad) = f c := by
        simp
      rw [h0]
      have hfun :
          ((List.range n).map ((fun i => if i < (c :: cs).length then f ((c :: cs).getD i d) else pad) ∘ Nat.succ))
            = (List.range n).map (fun i => if i < cs.length then f (cs.getD i d) else pad) := by
        apply List.map_congr_left
        intro i _
        simp [Function.comp, Nat.succ_lt_succ_iff]
      rw [hfun, ih cs d (by simpa using h)]
      simp

theorem hdLine_eq_specLine (off : Nat) (content : List Nat) (lo : Nat) :
    hdLine off content lo = specLine (off + lo) ((content.drop lo).take 8) := by
  have hlen : ((content.drop lo).take 8).length = min 8 (content.length - lo) := by
    simp [List.length_take, List.length_drop]
  have hle : ((content.drop lo).take 8).length ≤ 8 := by rw [hlen]; omega
  have hiff : ∀ i, i < 8 → (lo + i < content.length ↔ i < ((content.drop lo).take 8).length) := by
    intro i hi
    rw [hlen]
    omega
  have hval : ∀ i, i < ((content.drop lo).take 8).length →
      ((content.drop lo).take 8).getD i 0 = content.getD (lo + i) 0 := by
    intro i hi
    have h8 : i < 8 := lt_of_lt_of_le hi hle
    rw [List.getD_eq_getElem?_getD, List.getD_eq_getElem?_getD,
      List.getElem?_take, if_pos h8, List.getElem?_drop]
  have hfields :
      (List.range 8).map (fun i =>
          if lo + i < content.length then bin8 (content.getD (lo + i) 0) ++ [' ']
          else List.replicate 9 ' ')
        = (List.range 8).map (fun i =>
          if i < ((content.drop lo).take 8).length
          then bin8 (((content.drop lo).take 8).getD i 0) ++ [' ']
          else List.replicate 9 ' ') := by
    apply List.map_congr_left
    intro i hmem
    have hi : i < 8 := List.mem_range.mp hmem
    by_cases hcase : lo + i < content.length
    · rw [if_pos hcase, if_pos ((hiff i hi).mp hcase), hval i ((hiff i hi).mp hcase)]
    · rw [if_neg hcase, if_neg (fun hc => hcase ((hiff i hi).mpr hc))]
  have hascii :
      (List.range 8).map (fun i =>
          if lo + i < content.length then asciiCell (content.getD (lo + i) 0) else ' ')
        = (List.range 8).map (fun i =>
          if i < ((content.drop lo).take 8).length
          then asciiCell (((content.drop lo).take 8).getD i 0) else ' ') := by
    apply List.map_congr_left
    intro i hmem
    have hi : i < 8 := List.mem_range.mp hmem
    by_cases hcase : lo + i < content.length
    · rw [if_pos hcase, if_pos ((hiff i hi).mp hcase), hval i ((hiff i hi).mp hcase)]
    · rw [if_neg hcase, if_neg (fun hc => hcase ((hiff i hi).mpr hc))]
  rw [hdLine, specLine, hfields, hascii,
    range_map_join_chunk (fun b => bin8 b ++ [' ']) (List.replicate 9 ' ') 8 _ 0 hle,
    range_map_chunk asciiCell ' ' 8 _ 0 hle]
  simp [List.append_assoc]

theorem chunks8_length_aux :
    ∀ (n : Nat) (l : List Nat), l.length ≤ n → (chunks8 l).length = (l.length + 7) / 8 := by
  intro n
  induction n with
  | zero =>
    intro l h
    have : l = [] := List.eq_nil_of_length_eq_zero (Nat.le_zero.mp h)
    subst this
    rw [chunks8]
    simp
  | succ n ih =>
    intro l h
    by_cases hnil : l = []
    · subst hnil; rw [chunks8]; simp
    · have hpos : 0 < l.length := List.length_pos.mpr hnil
      rw [chunks8, if_neg hnil]
      have hdl : (l.drop 8).length ≤ n := by rw [List.length_drop]; omega
      rw [List.length_cons, ih (l.drop 8) hdl, List.length_drop]
      omega

theorem chunks8_length (l : List Nat) : (chunks8 l).length = (l.length + 7) / 8 :=
  chunks8_length_aux l.length l le_rfl

theorem hdRenderGo_spec :
    ∀ (k j off : Nat) (content : List Nat), content.length - 8 * j ≤ 8 * k →
      hdRenderGo off content (8 * j)
        = ((List.enumFrom j (chunks8 (content.drop (8 * j)))).map
            (fun p => specLine (off + 8 * p.1) p.2)).flatten := by
  intro k
  induction k with
  | zero =>
    intro j off content h
    have hge : ¬ 8 * j < content.length := by omega
    rw [hdRenderGo, if_neg hge]
    rw [List.drop_eq_nil_of_le (by omega), chunks8]
    simp
  | succ k ih =>
    intro j off content h
    by_cases hlt : 8 * j < content.length
    · rw [hdRenderGo, if_pos hlt]
      have hdnil : content.drop (8 * j) ≠ [] := by
        intro hc
        have := congrArg List.length hc
        rw [List.length_drop] at this
        simp at this
        omega
      rw [chunks8, if_neg hdnil]
      have hdd : (content.drop (8 * j)).drop 8 = content.drop (8 * (j + 1)) := by
        rw [List.drop_drop]
        congr 1
      rw [hdd, List.enumFrom_cons]
      simp only [List.map_cons, List.flatten_cons]
      rw [hdLine_eq_specLine off content (8 * j),
        show 8 * j + 8 = 8 * (j + 1) from by ring,
        ih (j + 1) off content (by omega)]
    · rw [hdRenderGo, if_neg hlt]
      rw [List.drop_eq_nil_of_le (by omega), chunks8]
      simp

/-- The rendered dump, line by line: line `i` (0-based) covers the bytes of
chunk `i` and starts at the absolute offset `file_offset + 8 * i`. -/
theorem hexdump_render_spec (off : Nat) (content : List Nat) :
    hexdump_render off content
      = ((chunks8 content).enum.map (fun p => specLine (off + 8 * p.1) p.2)).flatten := by
  have h := hdRenderGo_spec content.length 0 off content (by omega)
  simp only [Nat.mul_zero, List.drop_zero] at h
  rw [hexdump_render, h]
  rfl

/-! ## File-system model (SPDB_SDKFileSystem over the SDK calls)

The SDK calls (`spdb::sdk::file::stat/open/pread/file_size/opendir/readdir`)
are the external backend; they are modelled as an abstract `Sdk` record
keyed by the full backend path.  File sizes are non-negative, so the C++
`file_size < 0` error branch cannot fire in the model; `pread` delivers the
file's bytes from the requested offset. -/

/-- File type enumeration (`FileType` in filesystem_interface.h). -/
inductive FileType where
  | REGULAR_FILE
  | DIRECTORY
  | SYMBOLIC_LINK
  | BLOCK_DEVICE
  | CHARACTER_DEVICE
  | FIFO
  | SOCKET
  | UNKNOWN
deriving DecidableEq, Repr

/-- Result of a backend `stat` call (the fields of `struct stat` the
program reads). -/
structure StatRec where
  mode : Nat
  size : Nat
  mtime : Int
  atime : Int
  ctime : Int
deriving DecidableEq, Repr

/-- The abstract SDK backend: `stat` metadata, whether `open(O_RDONLY)`
succeeds, the readable byte content, and the `readdir` entry names
(`none` when `opendir` fails). -/
structure Sdk where
  stat : String → Option StatRec
  openOk : String → Bool
  content : String → List Nat
  dirents : String → Option (List String)

/-- `FileInfo` (filesystem_interface.h). -/
structure FileInfo where
  name : String
  type : FileType
  size : Nat
  mode : Nat
  mtime : Int
  atime : Int
  ctime : Int
  permissions_str : String
deriving DecidableEq, Repr

/-- `S_IFMT`-based type tests used via the `S_IS*` macros. -/
def S_ISREG (m : Nat) : Bool := m &&& 0o170000 == 0o100000
def S_ISDIR (m : Nat) : Bool := m &&& 0o170000 == 0o040000
def S_ISLNK (m : Nat) : Bool := m &&& 0o170000 == 0o120000
def S_ISBLK (m : Nat) : Bool := m &&& 0o170000 == 0o060000
def S_ISCHR (m : Nat) : Bool := m &&& 0o170000 == 0o020000
def S_ISFIFO (m : Nat) : Bool := m &&& 0o170000 == 0o010000
def S_ISSOCK (m : Nat) : Bool := m &&& 0o170000 == 0o140000

/-- `SPDB_SDKFileSystem::mode_to_file_type`. -/
def mode_to_file_type (m : Nat) : FileType :=
  if S_ISREG m then .REGULAR_FILE
  else if S_ISDIR m then .DIRECTORY
  else if S_ISLNK m then .SYMBOLIC_LINK
  else if S_ISBLK m then .BLOCK_DEVICE
  else if S_ISCHR m then .CHARACTER_DEVICE
  else if S_ISFIFO m then .FIFO
  else if S_ISSOCK m then .SOCKET
  else .UNKNOWN

/-- `FileSystemInterface::get_file_type_string` (filesystem_interface.cpp). -/
def get_file_type_string : FileType → String
  | .REGULAR_FILE => "regular file"
  | .DIRECTORY => "directory"
  | .SYMBOLIC_LINK => "symbolic link"
  | .BLOCK_DEVICE => "block device"
  | .CHARACTER_DEVICE => "character device"
  | .FIFO => "FIFO"
  | .SOCKET => "socket"
  | .UNKNOWN => "unknown"

/-- One permission character: the flag character when the bit is set,
`'-'` otherwise. -/
def permBit (m mask : Nat) (c : Char) : Char :=
  if m &&& mask ≠ 0 then c else '-'

/-- `FileSystemInterface::format_permissions` (filesystem_interface.cpp). -/
def format_permissions (m : Nat) : String :=
  let glyph :=
    if S_ISDIR m then 'd'
    else if S_ISLNK m then 'l'
    else if S_ISBLK m then 'b'
    else if S_ISCHR m then 'c'
    else if S_ISFIFO m then 'p'
    else if S_ISSOCK m then 's'
    else '-'
  ⟨[glyph,
    permBit m 0o400 'r', permBit m 0o200 'w', permBit m 0o100 'x',
    permBit m 0o040 'r', permBit m 0o020 'w', permBit m 0o010 'x',
    permBit m 0o004 'r', permBit m 0o002 'w', permBit m 0o001 'x']⟩

/-- `SPDB_SDKFileSystem::exists` (`exists` is reserved in Lean). -/
def pathExists (sdk : Sdk) (root cur path : String) : Bool :=
  (sdk.stat (get_full_path root cur path)).isSome

/-- `SPDB_SDKFileSystem::is_directory`. -/
def is_directory (sdk : Sdk) (root cur path : String) : Bool :=
  match sdk.stat (get_full_path root cur path) with
  | some st => S_ISDIR st.mode
  | none => false

/-- `path.substr(path.find_last_of('/') + 1)`: the suffix after the last
slash (the whole string when there is none, since `npos + 1 == 0`). -/
def lastComponent (path : String) : String :=
  ⟨(path.data.reverse.takeWhile (fun c => c ≠ '/')).reverse⟩

/-- `SPDB_SDKFileSystem::get_file_info`; the thrown `runtime_error` is the
`Except.error` case. -/
def get_file_info (sdk : Sdk) (root cur path : String) : Except String FileInfo :=
  match sdk.stat (get_full_path root cur path) with
  | none => .error ("Cannot get file info: " ++ path)
  | some st =>
    .ok { name := lastComponent path
          type := mode_to_file_type st.mode
          size := st.size
          mode := st.mode
          mtime := st.mtime
          atime := st.atime
          ctime := st.ctime
          permissions_str := format_permissions st.mode }

/-- `SPDB_SDKFileSystem::read_file_with_fd`: opens the full path read-only
(failure throws `"Cannot open file: " + path`) and hands the descriptor's
content to the continuation. -/
def read_file_with_fd (sdk : Sdk) (root cur path : String)
    (f : List Nat → Except String (List Nat)) : Except String (List Nat) :=
  let full := get_full_path root cur path
  if sdk.openOk full then f (sdk.content full)
  else .error ("Cannot open file: " ++ path)

/-- `SPDB_SDKFileSystem::read_file_content_at_offset`: rejects an offset
`>=` the file size, then reads `length` bytes (`0` or an over-long request
meaning to end of file). -/
def read_file_content_at_offset (sdk : Sdk) (root cur path : String)
    (offset length : Nat) : Except String (List Nat) :=
  read_file_with_fd sdk root cur path (fun bytes =>
    let file_size := bytes.length
    if offset ≥ file_size then .error "Offset exceeds file size"
    else
      let bytes_to_read :=
        if length = 0 ∨ length > file_size - offset then file_size - offset else length
      .ok ((bytes.drop offset).take bytes_to_read))

/-- `SPDB_SDKFileSystem::read_file_content`: delegates to
`read_file_content_at_offset` with offset 0. -/
def read_file_content (sdk : Sdk) (root cur path : String) (max_size : Nat) :
    Except String (List Nat) :=
  read_file_content_at_offset sdk root cur path 0 max_size

/-- Insertion sort on the entry name, modelling the
`std::sort(..., a.name < b.name)` call in `list_directory`. -/
def insertByName (x : FileInfo) : List FileInfo → List FileInfo
  | [] => [x]
  | y :: ys => if x.name < y.name then x :: y :: ys else y :: insertByName x ys

def sortByName : List FileInfo → List FileInfo
  | [] => []
  | x :: xs => insertByName x (sortByName xs)

/-- `SPDB_SDKFileSystem::list_directory`: `opendir` failure yields an empty
list; `"."` and `".."` are skipped; entries whose `get_file_info` throws
are skipped; the result is sorted by name. -/
def list_directory (sdk : Sdk) (root cur path : String) : List FileInfo :=
  match sdk.dirents (get_full_path root cur path) with
  | none => []
  | some names =>
    sortByName ((names.filter (fun n => !(n == "." || n == ".."))).filterMap (fun n =>
      let rel := if path = "" ∨ path = "." then n else path ++ "/" ++ n
      match get_file_info sdk root cur rel with
      | .ok info => some { info with name := n }
      | .error _ => none))

/-- `SPDB_SDKFileSystem::change_directory`: the resolved path must pass
`is_safe_path` and be a directory; on success the new current directory is
returned, otherwise `none` (the C++ `false` return leaves the member
`current_path_` untouched). -/
def change_directory (sdk : Sdk) (root cur path : String) : Option String :=
  let new_path := resolve_path cur path
  if !(is_safe_path new_path) then none
  else if is_directory sdk root cur new_path then some new_path
  else none

/-- The constructor `SPDB_SDKFileSystem::SPDB_SDKFileSystem` initializes
`current_path_("/")`. -/
def initial_current_path : String := "/"

/-! ## Command dispatcher (FileClient, ops-tools_copy/file_client.cpp) -/

/-- `CommandResult` (file_client.h). -/
structure CommandResult where
  success : Bool
  message : String
deriving DecidableEq, Repr

/-- `std::isspace` in the C locale (what `istringstream >> token` skips). -/
def isSpaceC (c : Char) : Bool :=
  c == ' ' || c == '\t' || c == '\n' || c == '\x0b' || c == '\x0c' || c == '\r'

/-- Whitespace tokenizer over characters, with the semantics of repeated
`iss >> token`: maximal runs of non-space characters. -/
def wsTokens : List Char → List (List Char)
  | [] => []
  | c :: t =>
    if isSpaceC c then wsTokens t
    else
      match t with
      | [] => [[c]]
      | d :: _ =>
        if isSpaceC d then [c] :: wsTokens t
        else
          match wsTokens t with
          | [] => [[c]]
          | tok :: rest => (c :: tok) :: rest

/-- `FileClient::parse_command`. -/
def parse_command (line : String) : List String :=
  (wsTokens line.data).map (fun l => (⟨l⟩ : String))

/-- Right-justified field of minimum width `w` (`std::setw(w)` with the
default space fill). -/
def padLeft (w : Nat) (s : String) : String :=
  ⟨List.replicate (w - s.data.length) ' ' ++ s.data⟩

/-- The `std::string` produced from a byte buffer (bytes become the code
points 0..255). -/
def bytesToString (bs : List Nat) : String :=
  ⟨bs.map Char.ofNat⟩

/-- `FileClient::get_file_mime_type` (the fixed extension table). -/
def get_file_mime_type (filename : String) : String :=
  if !(filename.data.contains '.') then ""
  else
    let ext : String := ⟨((filename.data.reverse.takeWhile (fun c => c ≠ '.')).reverse).map Char.toLower⟩
    if ext = "txt" then "text/plain"
    else if ext = "cpp" ∨ ext = "cc" ∨ ext = "c" then "text/x-c++src"
    else if ext = "h" ∨ ext = "hpp" then "text/x-c++hdr"
    else if ext = "py" then "text/x-python"
    else if ext = "js" then "text/javascript"
    else if ext = "html" then "text/html"
    else if ext = "css" then "text/css"
    else if ext = "json" then "application/json"
    else if ext = "xml" then "application/xml"
    else if ext = "pdf" then "application/pdf"
    else if ext = "jpg" ∨ ext = "jpeg" then "image/jpeg"
    else if ext = "png" then "image/png"
    else if ext = "gif" then "image/gif"
    else if ext = "zip" then "application/zip"
    else if ext = "tar" then "application/x-tar"
    else if ext = "gz" then "application/gzip"
    else ""

/-- `std::stoull`: skip leading whitespace, optional sign, at least one
decimal digit (`none` models the thrown `invalid_argument`), value wrapped
as for `strtoull` on a `'-'` sign; a value beyond 64 bits models the
thrown `out_of_range` as `none`. -/
def stoull (s : String) : Option Nat :=
  let t := s.data.dropWhile isSpaceC
  let signAndRest : Bool × List Char :=
    match t with
    | '+' :: r => (false, r)
    | '-' :: r => (true, r)
    | r => (false, r)
  let digits := signAndRest.2.takeWhile (fun c => c.isDigit)
  if digits = [] then none
  else
    let v := digits.foldl (fun acc c => acc * 10 + (c.toNat - 48)) 0
    if v ≥ 2 ^ 64 then none
    else if signAndRest.1 then some ((2 ^ 64 - v) % 2 ^ 64)
    else some v

/-- `FileClient::cmd_ls`. -/
def cmd_ls (sdk : Sdk) (root cur : String) (args : List String) : CommandResult :=
  let parsed := args.foldl (fun (p : Bool × String) arg =>
      if arg = "-l" then (true, p.2)
      else if arg.data.head? ≠ some '-' then (p.1, arg)
      else p) (false, ".")
  let long_format := parsed.1
  let target_path := parsed.2
  let resolved := resolve_path cur target_path
  if !(pathExists sdk root cur resolved) then
    ⟨false, "Path does not exist: " ++ target_path⟩
  else if !(is_directory sdk root cur resolved) then
    match get_file_info sdk root cur resolved with
    | .error e => ⟨false, "Error: " ++ e⟩
    | .ok info =>
      if long_format then
        ⟨true, info.name ++ " " ++ padLeft 10 (toString info.size) ++ " " ++ "byte" ++ " "
          ++ get_file_type_string info.type⟩
      else ⟨true, info.name⟩
  else
    let files := list_directory sdk root cur resolved
    if files.isEmpty then ⟨true, "Directory is empty"⟩
    else if long_format then
      ⟨true, String.join (files.map (fun f =>
        f.name ++ " " ++ padLeft 10 (toString f.size) ++ " " ++ "byte" ++ " "
          ++ get_file_type_string f.type ++ "\n"))⟩
    else
      ⟨true, String.join (files.map (fun f => f.name ++ "  ")) ++ "\n"⟩

/-- `FileClient::cmd_file`. -/
def cmd_file (sdk : Sdk) (root cur : String) (args : List String) : CommandResult :=
  match args with
  | [] => ⟨false, "Usage: file <filename>"⟩
  | filename :: _ =>
    let resolved := resolve_path cur filename
    if !(pathExists sdk root cur resolved) then
      ⟨false, "File does not exist: " ++ filename⟩
    else
      match get_file_info sdk root cur resolved with
      | .error e => ⟨false, "Error: " ++ e⟩
      | .ok info =>
        let base := filename ++ ": " ++ get_file_type_string info.type
        if info.type = FileType.REGULAR_FILE then
          match read_file_content sdk root cur resolved 1024 with
          | .error _ => ⟨true, base ++ ", cannot read content"⟩
          | .ok content =>
            let base2 := base ++ (if is_text_file content then ", text file" else ", binary file")
            let mime := get_file_mime_type filename
            ⟨true, base2 ++ (if mime ≠ "" then " (" ++ mime ++ ")" else "")⟩
        else ⟨true, base⟩

/-- `FileClient::cmd_stat` as it stands in ops-tools_copy/file_client.cpp:
the permission and timestamp lines are commented out there (with the note
that the SDK provides no permission or time information), so the output is
the `File:`, `Type:` and `Size:` lines only. -/
def cmd_stat (sdk : Sdk) (root cur : String) (args : List String) : CommandResult :=
  match args with
  | [] => ⟨false, "Usage: stat <filename>"⟩
  | filename :: _ =>
    let resolved := resolve_path cur filename
    if !(pathExists sdk root cur resolved) then
      ⟨false, "File does not exist: " ++ filename⟩
    else if is_directory sdk root cur resolved then
      ⟨false, filename ++ " is a directory"⟩
    else
      match get_file_info sdk root cur resolved with
      | .error e => ⟨false, "Error: " ++ e⟩
      | .ok info =>
        ⟨true, "File: " ++ filename ++ "\n"
          ++ "Type: " ++ get_file_type_string info.type ++ "\n"
          ++ "Size: " ++ toString info.size ++ " bytes\n"⟩

/-- `FileClient::cmd_cat`. -/
def cmd_cat (sdk : Sdk) (root cur : String) (args : List String) : CommandResult :=
  match args with
  | [] => ⟨false, "Usage: cat <filename>"⟩
  | filename :: _ =>
    let resolved := resolve_path cur filename
    if !(pathExists sdk root cur resolved) then
      ⟨false, "File does not exist: " ++ filename⟩
    else if is_directory sdk root cur resolved then
      ⟨false, filename ++ " is a directory, cannot display content"⟩
    else
      match read_file_content sdk root cur resolved (1024 * 1024) with
      | .error e => ⟨false, "Error: " ++ e⟩
      | .ok content =>
        if content = [] then ⟨true, "File is empty"⟩
        else if !(is_text_file content) then
          ⟨false, filename ++ " is a binary file, cannot display"⟩
        else ⟨true, bytesToString content⟩

/-- `FileClient::cmd_cd`.  The filesystem held by the client is the
`SPDB_SDKFileSystem`, so the `dynamic_cast` succeeds and the escape check
runs.  The returned pair carries the (possibly updated) current
directory. -/
def cmd_cd (sdk : Sdk) (root cur : String) (args : List String) : String × CommandResult :=
  let target_path := match args with | [] => "/" | a :: _ => a
  if is_trying_to_escape_root cur target_path then
    (cur, ⟨false, "Access denied: Cannot navigate above the root directory (" ++ target_path
      ++ ").\nCurrent root directory restricts access to its subdirectories only."⟩)
  else
    match change_directory sdk root cur target_path with
    | some newCur => (newCur, ⟨true, ""⟩)
    | none => (cur, ⟨false, "Cannot change to directory: " ++ target_path⟩)

/-- `FileClient::cmd_pwd`. -/
def cmd_pwd (cur : String) (_ : List String) : CommandResult :=
  ⟨true, cur⟩

/-- The flag-parsing loop of `cmd_hexdump`: `-offset N` and `-len N`
consume their value token (parse failure is the dedicated invalid-value
failure), a non-flag token becomes the filename, and an unrecognized
flag-looking token is skipped. -/
def hexdumpArgs : List String → Nat → Nat → String → Except CommandResult (Nat × Nat × String)
  | [], file_offset, read_length, filename => .ok (file_offset, read_length, filename)
  | a :: rest, file_offset, read_length, filename =>
    if a = "-offset" ∧ rest ≠ [] then
      match stoull (rest.headD "") with
      | some v => hexdumpArgs rest.tail v read_length filename
      | none => .error ⟨false, "Invalid offset value: " ++ rest.headD ""⟩
    else if a = "-len" ∧ rest ≠ [] then
      match stoull (rest.headD "") with
      | some v => hexdumpArgs rest.tail file_offset v filename
      | none => .error ⟨false, "Invalid length value: " ++ rest.headD ""⟩
    else if a.data.head? ≠ some '-' then hexdumpArgs rest file_offset read_length a
    else hexdumpArgs rest file_offset read_length filename
termination_by l _ _ _ => l.length
decreasing_by
  all_goals simp [List.length_tail]
  all_goals omega

/-- `FileClient::cmd_hexdump`. -/
def cmd_hexdump (sdk : Sdk) (root cur : String) (args : List String) : CommandResult :=
  if args = [] then ⟨false, "Usage: hexdump [-offset N] [-len N] <filename>"⟩
  else
    match hexdumpArgs args 0 0 "" with
    | .error r => r
    | .ok (file_offset, read_length, filename) =>
      if filename = "" then ⟨false, "Usage: hexdump [-offset N] [-len N] <filename>"⟩
      else
        let resolved := resolve_path cur filename
        if !(pathExists sdk root cur resolved) then
          ⟨false, "File does not exist: " ++ filename⟩
        else if is_directory sdk root cur resolved then
          ⟨false, filename ++ " is a directory, cannot hexdump"⟩
        else
          let contentE :=
            if 0 < file_offset ∨ 0 < read_length then
              let max_read_length :=
                if read_length = 0 ∨ read_length > 1024 * 1024 then 1024 * 1024 else read_length
              read_file_content_at_offset sdk root cur resolved file_offset max_read_length
            else read_file_content sdk root cur resolved (1024 * 1024)
          match contentE with
          | .error e => ⟨false, "Error: " ++ e⟩
          | .ok content =>
            if content = [] then
              ⟨true, "No data to display (file empty or offset beyond file size)"⟩
            else ⟨true, ⟨hexdump_render file_offset content⟩⟩

/-- `FileClient::cmd_help` (the static usage text of ops-tools_copy). -/
def cmd_help (_ : List String) : CommandResult :=
  ⟨true, "File Client Tool - Available Commands:\n\n"
    ++ "Directory Operations:\n"
    ++ "  ls [path]          List directory contents\n"
    ++ "  ls -l [path]       List detailed directory contents (permissions, size, time)\n"
    ++ "  cd [path]          Change directory\n"
    ++ "  pwd                Show current directory\n\n"
    ++ "File Information:\n"
    ++ "  file <filename>    Show file type\n"
    ++ "  stat <filename>    Show detailed file information\n"
    ++ "File Content:\n"
    ++ "  cat <filename>     Display file content\n"
    ++ "  hexdump <filename> Display hexadecimal dump of file\n\n"
    ++ "    hexdump -len -offset <filename>"
    ++ "Other:\n"
    ++ "  help               Show this help message\n"
    ++ "  exit/quit          Exit the program\n\n"
    ++ "Note: Access is restricted to the specified root directory"⟩

/-- The command-table lookup of `FileClient::execute_command` applied to
the first token.  The `exit`/`quit` check precedes the table lookup; the
table keys are `ls, file, stat, cat, cd, pwd, hexdump, help, ?` — the `du`
entry is commented out in ops-tools_copy/file_client.cpp (the
`unordered_map` keys are distinct, so the if-chain order is immaterial).
The pair returned carries the session's current directory after the
command: only `cd` can change it, all other handlers are `const` with
respect to the session state. -/
def dispatch (sdk : Sdk) (root cur : String) (cmd : String) (args : List String) :
    String × CommandResult :=
  if cmd = "exit" ∨ cmd = "quit" then (cur, ⟨false, "exit"⟩)
  else if cmd = "ls" then (cur, cmd_ls sdk root cur args)
  else if cmd = "file" then (cur, cmd_file sdk root cur args)
  else if cmd = "stat" then (cur, cmd_stat sdk root cur args)
  else if cmd = "cat" then (cur, cmd_cat sdk root cur args)
  else if cmd = "cd" then cmd_cd sdk root cur args
  else if cmd = "pwd" then (cur, cmd_pwd cur args)
  else if cmd = "hexdump" then (cur, cmd_hexdump sdk root cur args)
  else if cmd = "help" ∨ cmd = "?" then (cur, cmd_help args)
  else (cur, ⟨false, "Unknown command: " ++ cmd ++ ", use 'help' for available commands"⟩)

/-- `FileClient::execute_command`: empty lines and blank lines succeed
with an empty message, otherwise the first token selects the handler. -/
def execute_command (sdk : Sdk) (root cur line : String) : String × CommandResult :=
  if line = "" then (cur, ⟨true, ""⟩)
  else
    match parse_command line with
    | [] => (cur, ⟨true, ""⟩)
    | cmd :: args => dispatch sdk root cur cmd args

/-! ## Helpers and fixtures for the claims -/

/-- Substring test (used to state what an output does not mention). -/
def containsSub : List Char → List Char → Bool
  | [], pat => pat.isEmpty
  | s@(_ :: t), pat => pat.isPrefixOf s || containsSub t pat

/-- A small concrete backend: the root directory `/r/` holding an empty
regular file `empty.txt`, a 5-byte regular file `f` and a subdirectory
`sub`. -/
def sdkFix : Sdk :=
  { stat := fun p =>
      if p = "/r/" then some ⟨0o040755, 0, 0, 0, 0⟩
      else if p = "/r/empty.txt" then some ⟨0o100644, 0, 0, 0, 0⟩
      else if p = "/r/f" then some ⟨0o100644, 5, 0, 0, 0⟩
      else if p = "/r/sub" then some ⟨0o040755, 0, 0, 0, 0⟩
      else none
    openOk := fun p => p = "/r/empty.txt" || p = "/r/f"
    content := fun p => if p = "/r/f" then [104, 101, 108, 108, 111] else []
    dirents := fun _ => none }

theorem is_safe_path_true (q : String) : is_safe_path q = true := by
  show (!(normalize_path q).data.isEmpty && ((normalize_path q).data.head? == some '/')) = true
  rw [show (normalize_path q).data = normChars q.data from rfl, normChars_eq_cons]
  simp

theorem parse_command_empty : parse_command "" = [] := rfl

theorem execute_command_cons (sdk : Sdk) (root cur line : String) (cmd : String)
    (args : List String) (hp : parse_command line = cmd :: args) :
    execute_command sdk root cur line = dispatch sdk root cur cmd args := by
  have hline : line ≠ "" := by
    intro he
    subst he
    rw [parse_command_empty] at hp
    exact List.noConfusion hp
  rw [execute_command, if_neg hline, hp]

theorem cmd_cd_frame (sdk : Sdk) (root cur : String) (args : List String) :
    (cmd_cd sdk root cur args).1 = cur ∨ (cmd_cd sdk root cur args).2.success = true := by
  simp only [cmd_cd]
  set tgt := (match args with | [] => "/" | a :: _ => a) with htgt
  by_cases hesc : is_trying_to_escape_root cur tgt
  · rw [if_pos hesc]; left; rfl
  · rw [if_neg hesc]
    rcases hcd : change_directory sdk root cur tgt with _ | newCur
    · left; rfl
    · right; rfl

theorem chunks8_sizes :
    ∀ (n : Nat) (l : List Nat), l.length ≤ n →
      ∀ c ∈ chunks8 l, c.length ≤ 8 ∧ c ≠ [] := by
  intro n
  induction n with
  | zero =>
    intro l h c hc
    have : l = [] := List.eq_nil_of_length_eq_zero (Nat.le_zero.mp h)
    subst this
    rw [chunks8] at hc
    simp at hc
  | succ n ih =>
    intro l h c hc
    by_cases hnil : l = []
    · subst hnil; rw [chunks8] at hc; simp at hc
    · rw [chunks8, if_neg hnil] at hc
      rcases List.mem_cons.mp hc with hc | hc
      · subst hc
        constructor
        · simp [List.length_take]
        · have hlen0 : (l.take 8).length ≠ 0 := by
            rw [List.length_take]
            have hpos : 0 < l.length := List.length_pos.mpr hnil
            omega
          intro he
          rw [he] at hlen0
          simp at hlen0
      · have hdl : (l.drop 8).length ≤ n := by
          rw [List.length_drop]
          have hpos : 0 < l.length := List.length_pos.mpr hnil
          omega
        exact ih (l.drop 8) hdl c hc

/-! ## Claim theorems -/

/-- C1: `get_full_path` (the `to_backend_path` of the spec) stays under the
configured root for every input: it equals `root_path_` concatenated with
the normalized virtual path minus its leading `'/'`, that normalized path
always starts with `'/'`, and the appended suffix contains no `"."` or
`".."` segments — so every backend access lands under the root. -/
theorem C1_confinement (root cur p : String) :
    get_full_path root cur p = root ++ (⟨(normalize_path p).data.drop 1⟩ : String)
    ∧ (normalize_path p).data.head? = some '/'
    ∧ ∀ seg ∈ getlineSegs ((normalize_path p).data.drop 1),
        seg ≠ ['.'] ∧ seg ≠ ['.', '.'] := by
  refine ⟨?_, normChars_head p.data, normChars_drop_one_segs p.data⟩
  apply String.ext
  show fullChars root.data cur.data p.data = (root ++ (⟨(normChars p.data).drop 1⟩ : String)).data
  rw [String.data_append]
  exact fullChars_eq root.data cur.data p.data

/-- C2: the escape check of `cd` can never fire: `is_trying_to_escape_root`
tests the already-resolved (hence normalized, hence `'/'`-prefixed) path,
so it returns `false` for every current directory and every raw argument;
consequently `cd ..` at `/` is silently clamped and succeeds with an empty
message instead of the dedicated "Access denied" failure, and the backend
`change_directory` call is reached. -/
theorem C2_escape_check_vacuous :
    (∀ (cur p : String), is_trying_to_escape_root cur p = false)
    ∧ execute_command sdkFix "/r/" "/" "cd .." = ("/", ⟨true, ""⟩) := by
  constructor
  · intro cur p
    rw [is_trying_to_escape_root, is_safe_path_true]
    rfl
  · decide

/-- C3: `cat` on an existing, empty, regular file does not produce the
"File is empty" success: `read_file_content_at_offset` rejects
`offset >= file_size`, so offset 0 on a size-0 file throws
"Offset exceeds file size" and `cmd_cat` converts it into the failure
`(false, "Error: Offset exceeds file size")`; the "File is empty" branch
is unreachable. -/
theorem C3_cat_empty_file :
    pathExists sdkFix "/r/" "/" "/empty.txt" = true
    ∧ is_directory sdkFix "/r/" "/" "/empty.txt" = false
    ∧ sdkFix.content "/r/empty.txt" = []
    ∧ execute_command sdkFix "/r/" "/" "cat empty.txt"
        = ("/", ⟨false, "Error: Offset exceeds file size"⟩) := by
  decide

/-- C4 counterexample: for an existing 5-byte regular file `f`, `stat`
succeeds but its whole output is the three lines `File:`/`Type:`/`Size:`;
it mentions neither a permission string nor any timestamp line, refuting
the claim that permissions, octal mode and the three timestamps are
reported. -/
theorem C4_stat_counterexample :
    execute_command sdkFix "/r/" "/" "stat f"
      = ("/", ⟨true, "File: f\nType: regular file\nSize: 5 bytes\n"⟩)
    ∧ containsSub ("File: f\nType: regular file\nSize: 5 bytes\n").data ("Permissions".data) = false
    ∧ containsSub ("File: f\nType: regular file\nSize: 5 bytes\n").data ("Modified".data) = false
    ∧ containsSub ("File: f\nType: regular file\nSize: 5 bytes\n").data ("Accessed".data) = false
    ∧ containsSub ("File: f\nType: regular file\nSize: 5 bytes\n").data ("Created".data) = false := by
  decide

/-- C4 amended: for every existing non-directory file, `stat` reports
exactly the file name, its kind string and its size in bytes (the
permission and timestamp lines are commented out in the client). -/
theorem C4_stat_reports_kind_and_size (sdk : Sdk) (root cur fname : String)
    (rest : List String) (st : StatRec)
    (hstat : sdk.stat (get_full_path root cur (resolve_path cur fname)) = some st)
    (hnd : S_ISDIR st.mode = false) :
    cmd_stat sdk root cur (fname :: rest)
      = ⟨true, "File: " ++ fname ++ "\n"
          ++ "Type: " ++ get_file_type_string (mode_to_file_type st.mode) ++ "\n"
          ++ "Size: " ++ toString st.size ++ " bytes\n"⟩ := by
  simp [cmd_stat, pathExists, is_directory, get_file_info, hstat, hnd]

/-- C4 witness: the amended statement applied to the fixture file `f`. -/
theorem C4_stat_witness :
    (sdkFix.stat (get_full_path "/r/" "/" (resolve_path "/" "f"))
        = some ⟨0o100644, 5, 0, 0, 0⟩
      ∧ S_ISDIR (0o100644 : Nat) = false)
    ∧ cmd_stat sdkFix "/r/" "/" ["f"]
        = ⟨true, "File: " ++ "f" ++ "\n"
            ++ "Type: " ++ get_file_type_string (mode_to_file_type (0o100644 : Nat)) ++ "\n"
            ++ "Size: " ++ toString (5 : Nat) ++ " bytes\n"⟩ :=
  ⟨⟨by decide, by decide⟩,
    C4_stat_reports_kind_and_size sdkFix "/r/" "/" "f" [] ⟨0o100644, 5, 0, 0, 0⟩
      (by decide) (by decide)⟩

/-- C5 counterexample: `du` is not in the dispatcher's command table (the
entry is commented out), so a `du` line is answered with the Unknown
command failure. -/
theorem C5_du_counterexample :
    execute_command sdkFix "/r/" "/" "du"
      = ("/", ⟨false, "Unknown command: du, use 'help' for available commands"⟩) := by
  decide

/-- C5 amended: for every backend, state and argument list, a command line
whose first token is `du` produces exactly the Unknown-command failure
(and leaves the state unchanged). -/
theorem C5_du_unknown (sdk : Sdk) (root cur line : String)
    (h : (parse_command line).head? = some "du") :
    execute_command sdk root cur line
      = (cur, ⟨false, "Unknown command: du, use 'help' for available commands"⟩) := by
  rcases hp : parse_command line with _ | ⟨cmd, args⟩
  · rw [hp] at h; simp at h
  · rw [hp] at h
    simp only [List.head?_cons, Option.some.injEq] at h
    subst h
    rw [execute_command_cons sdk root cur line "du" args hp, dispatch,
      if_neg (by decide), if_neg (by decide), if_neg (by decide), if_neg (by decide),
      if_neg (by decide), if_neg (by decide), if_neg (by decide), if_neg (by decide),
      if_neg (by decide),
      show "Unknown command: " ++ "du" ++ ", use 'help' for available commands"
        = "Unknown command: du, use 'help' for available commands" from by decide]

/-- C5 witness: the amended statement applied to the line `du -h x`. -/
theorem C5_du_witness :
    (parse_command "du -h x").head? = some "du"
    ∧ execute_command sdkFix "/r/" "/" "du -h x"
        = ("/", ⟨false, "Unknown command: du, use 'help' for available commands"⟩) :=
  ⟨by decide, C5_du_unknown sdkFix "/r/" "/" "du -h x" (by decide)⟩

/-- C6 counterexample: a window consisting of the single valid 2-byte lead
`0xC3` with no continuation byte counts zero non-printable units (the
claim would make it one unit, hence 100 percent non-printable and a binary
classification), so the content is classified as text. -/
theorem C6_truncated_lead_counterexample :
    countNP [0xC3] = some 0 ∧ is_text_file [0xC3] = true := by
  decide

/-- C6 amended: at a valid multi-byte lead, a continuation byte inside the
window that fails the `10xxxxxx` pattern makes the occurrence count one
non-printable unit (with the full sequence length still consumed); but
when the window merely ends before the required continuation bytes and all
present ones are valid, the truncated occurrence counts zero units. -/
theorem C6_continuation_counting (lead L : Nat) (rest : List Nat)
    (hc : 0x80 ≤ lead) (hL : utf8LeadLen lead = L) (hL0 : L ≠ 0) :
    ((rest.length < L - 1
        ∧ (rest.take (L - 1)).all (fun cc => cc &&& 0xC0 == 0x80) = true) →
      countNP (lead :: rest) = some 0)
    ∧ ((rest.take (L - 1)).all (fun cc => cc &&& 0xC0 == 0x80) = false →
      countNP (lead :: rest) = Option.map (· + 1) (countNP (rest.drop (L - 1)))) := by
  have hstep := countNP_utf8_step lead rest hc (by rw [hL]; exact hL0)
  rw [hL] at hstep
  constructor
  · rintro ⟨hlen, hvalid⟩
    rw [hstep, hvalid, List.drop_eq_nil_of_le (by omega)]
    simp [countNP, countNPF]
  · intro hinvalid
    rw [hstep, hinvalid]
    simp

/-- C6 witness: the amended statement at the truncated window `[0xC3]` and
at the invalid continuation `[0xC3, 0x41]`. -/
theorem C6_continuation_witness :
    (0x80 ≤ 0xC3 ∧ utf8LeadLen 0xC3 = 2 ∧ (2 : Nat) ≠ 0
      ∧ ([] : List Nat).length < 2 - 1
      ∧ (([] : List Nat).take (2 - 1)).all (fun cc => cc &&& 0xC0 == 0x80) = true
      ∧ (([0x41] : List Nat).take (2 - 1)).all (fun cc => cc &&& 0xC0 == 0x80) = false)
    ∧ countNP [0xC3] = some 0
    ∧ countNP [0xC3, 0x41] = Option.map (· + 1) (countNP (([0x41] : List Nat).drop (2 - 1))) :=
  ⟨by decide,
    (C6_continuation_counting 0xC3 2 [] (by decide) (by decide) (by decide)).1
      ⟨by decide, by decide⟩,
    (C6_continuation_counting 0xC3 2 [0x41] (by decide) (by decide) (by decide)).2
      (by decide)⟩

/-- C7: path normalization is idempotent on every raw input string. -/
theorem C7_normalize_idempotent (s : String) :
    normalize_path (normalize_path s) = normalize_path s :=
  congrArg String.mk (normChars_idem s.data)

/-- C8: the session's current directory starts at `"/"` (the constructor
initializes `current_path_("/")`) and after executing any command line it
is unchanged unless the line's first token is `cd` and the command
succeeded. -/
theorem C8_current_directory_frame :
    initial_current_path = "/"
    ∧ ∀ (sdk : Sdk) (root cur line : String),
        (execute_command sdk root cur line).1 = cur
        ∨ ((parse_command line).head? = some "cd"
            ∧ (execute_command sdk root cur line).2.success = true) := by
  refine ⟨rfl, ?_⟩
  intro sdk root cur line
  by_cases hline : line = ""
  · left; rw [hline]; rfl
  · rcases hp : parse_command line with _ | ⟨cmd, args⟩
    · left
      rw [execute_command, if_neg hline, hp]
    · rw [execute_command_cons sdk root cur line cmd args hp, dispatch]
      split_ifs with h1 h2 h3 h4 h5 h6 h7 h8 h9
      all_goals try (left; rfl)
      rcases cmd_cd_frame sdk root cur args with hf | hf
      · left; exact hf
      · right
        refine ⟨?_, hf⟩
        rw [h6]
        rfl

/-- C9: a line whose first token is `exit` or `quit` makes `execute_command`
return exactly the sentinel `(false, "exit")`, whatever the trailing
arguments, and leaves the state unchanged. -/
theorem C9_exit_sentinel (sdk : Sdk) (root cur line : String)
    (h : (parse_command line).head? = some "exit"
      ∨ (parse_command line).head? = some "quit") :
    execute_command sdk root cur line = (cur, ⟨false, "exit"⟩) := by
  rcases hp : parse_command line with _ | ⟨cmd, args⟩
  · rw [hp] at h
    rcases h with h | h <;> simp at h
  · rw [hp] at h
    have hcmd : cmd = "exit" ∨ cmd = "quit" := by
      rcases h with h | h
      · left; simpa using h
      · right; simpa using h
    rw [execute_command_cons sdk root cur line cmd args hp, dispatch, if_pos hcmd]

/-- C9 witness: the sentinel on the line `exit 1 2`. -/
theorem C9_exit_witness :
    ((parse_command "exit 1 2").head? = some "exit"
      ∨ (parse_command "exit 1 2").head? = some "quit")
    ∧ execute_command sdkFix "/r/" "/" "exit 1 2" = ("/", ⟨false, "exit"⟩) :=
  ⟨Or.inl (by decide), C9_exit_sentinel sdkFix "/r/" "/" "exit 1 2" (Or.inl (by decide))⟩

/-- C10: on every non-empty window the rendered dump is exactly one line
per 8-byte chunk — line `i` is the chunk's bytes rendered as described by
`specLine` at the absolute offset `file_offset + 8 * i` — the number of
lines is the length of the content divided by 8 rounded up (so an 8-byte
input yields one line and a 1-byte input yields one line whose 7 missing
slots are padded), every chunk holds between 1 and 8 bytes, and at least
one line is emitted. -/
theorem C10_hexdump_lines (off : Nat) (content : List Nat) (h : content ≠ []) :
    hexdump_render off content
      = ((chunks8 content).enum.map (fun p => specLine (off + 8 * p.1) p.2)).flatten
    ∧ (chunks8 content).length = (content.length + 7) / 8
    ∧ (∀ chunk ∈ chunks8 content, chunk.length ≤ 8 ∧ chunk ≠ [])
    ∧ chunks8 content ≠ [] := by
  refine ⟨hexdump_render_spec off content, chunks8_length content,
    chunks8_sizes content.length content le_rfl, ?_⟩
  rw [chunks8, if_neg h]
  simp

/-- C10 witness: the line structure on the 1-byte window `[65]`. -/
theorem C10_hexdump_witness :
    ([65] : List Nat) ≠ []
    ∧ (hexdump_render 0 [65]
        = ((chunks8 [65]).enum.map (fun p => specLine (0 + 8 * p.1) p.2)).flatten
      ∧ (chunks8 [65]).length = (([65] : List Nat).length + 7) / 8
      ∧ (∀ chunk ∈ chunks8 [65], chunk.length ≤ 8 ∧ chunk ≠ [])
      ∧ chunks8 [65] ≠ []) :=
  ⟨by decide, C10_hexdump_lines 0 [65] (by decide)⟩

end FileClient
